import Mathlib

/-!
Shallow embedding of the Gladly-to-Enterpret import pipeline.

The definitions below are translated from the JavaScript sources of the
repository: the Transformer (channel inference, content assembly, customer
mapping), the Gladly client fetch helpers, the import orchestrator's
finalization step, the state manager update, and the Enterpret client's
local payload validation.  Dates are modelled as abstract instants
(natural numbers); rendering a date is modelled by an injective function
to strings.  JavaScript truthiness on optional string values (undefined
and the empty string are falsy) is modelled explicitly.
-/

namespace GladlyImport

/-- JavaScript truthiness of an optional string value: undefined and the
empty string are falsy, every other string is truthy. -/
def truthyS : Option String → Bool
  | none => false
  | some s => !s.isEmpty

/-- JavaScript disjunction a || b on optional string values: yields a when
a is truthy, otherwise b. -/
def jsOrS (a b : Option String) : Option String :=
  if truthyS a then a else b

/-- JavaScript string coercion with empty-string default, modelling the
pattern x || the empty string. -/
def jsStr (v : Option String) : String :=
  v.getD ""

/-- Initiator of a conversation item (source field initiator.type). -/
structure Initiator where
  type : String
  deriving Repr, DecidableEq

/-- Content of a conversation item: the type tag plus the union of the
type-specific fields read by the Transformer switch.  Timestamps inside
content (answeredAt, completedAt) are abstract instants. -/
structure Content where
  type : String
  content : Option String := none
  subject : Option String := none
  bodyPlain : Option String := none
  body : Option String := none
  status : Option String := none
  title : Option String := none
  answeredAt : Option Nat := none
  completedAt : Option Nat := none
  addedTopicIds : List String := []
  removedTopicIds : List String := []
  deriving Repr, DecidableEq

/-- One Gladly conversation item as read by the Transformer. -/
structure Item where
  timestamp : Nat
  initiator : Option Initiator := none
  content : Option Content := none
  deriving Repr, DecidableEq

/-- The fixed type-to-channel table of the Transformer constructor. -/
def channelMap : String → Option String
  | "CHAT_MESSAGE" => some "chat"
  | "EMAIL" => some "email"
  | "SMS" => some "sms"
  | "TWITTER" => some "social"
  | "FACEBOOK_MESSENGER" => some "social"
  | "INSTAGRAM_DIRECT" => some "social"
  | "WHATSAPP" => some "messaging"
  | "PHONE_CALL" => some "voice"
  | "VOICEMAIL" => some "voice"
  | "CUSTOMER_ACTIVITY" => some "other"
  | _ => none

/-- The channel sequence counted by determinePrimaryChannel: one channel
per item that has a content object with a truthy type, obtained through
the table with default other. -/
def channelsOf (items : List Item) : List String :=
  items.filterMap fun i =>
    match i.content with
    | none => none
    | some c => if c.type = "" then none else some ((channelMap c.type).getD "other")

/-- Whether an association list of counts already has the given key. -/
def keyMem (acc : List (String × Nat)) (c : String) : Bool :=
  acc.any fun e => e.1 == c

/-- One step of count accumulation, modelling the JavaScript object update
channelCounts[channel] = (channelCounts[channel] || 0) + 1: the key keeps
its first-insertion position, a new key is appended. -/
def bump (acc : List (String × Nat)) (c : String) : List (String × Nat) :=
  if keyMem acc c then acc.map fun e => if e.1 == c then (e.1, e.2 + 1) else e
  else acc ++ [(c, 1)]

/-- The channel count table, in key-insertion order, as built by the first
loop of determinePrimaryChannel. -/
def channelCounts (items : List Item) : List (String × Nat) :=
  (channelsOf items).foldl bump []

/-- One step of the maximum-selection loop of determinePrimaryChannel:
a strictly greater count replaces the current winner. -/
def pickStep (pm : String × Nat) (e : String × Nat) : String × Nat :=
  if pm.2 < e.2 then e else pm

/-- Transformer._determinePrimaryChannel: empty item list yields other,
otherwise the count table is scanned in insertion order and a channel
wins only with a strictly greater count. -/
def determinePrimaryChannel (items : List Item) : String :=
  if items.isEmpty then "other"
  else ((channelCounts items).foldl pickStep ("other", 0)).1

/-- The maximal multiplicity occurring in a channel sequence. -/
def maxCountVal (cs : List String) : Nat :=
  (cs.map fun c => cs.count c).foldl Nat.max 0

/-- Helper for firstSeenToReachMax: scan the sequence keeping the already
seen prefix, and return the first channel whose running count reaches M. -/
def firstReachAux (M : Nat) : List String → List String → Option String
  | _, [] => none
  | seen, c :: rest =>
      if (c :: seen).count c = M then some c
      else firstReachAux M (c :: seen) rest

/-- Modelled from the spec claim wording: the channel that is first seen
to reach the maximal count when the item channel sequence is scanned left
to right (first-seen-at-max-count semantics); other when the sequence is
empty. -/
def firstSeenToReachMax (cs : List String) : String :=
  (firstReachAux (maxCountVal cs) [] cs).getD "other"

/-- Modelled from the amended claim wording: the channel of the earliest
item whose channel is tied at the maximal count, i.e. the first element of
the sequence whose total multiplicity is maximal; other when the sequence
is empty. -/
def firstMaxByOccurrence (cs : List String) : String :=
  (cs.find? fun c => cs.count c == maxCountVal cs).getD "other"

/-- A list with duplicates removed, keeping the first occurrence of each
element in order (the key-insertion order of a JavaScript object). -/
def dedupF : List String → List String
  | [] => []
  | c :: t => c :: dedupF (t.filter fun x => x ≠ c)
  termination_by l => l.length
  decreasing_by
    simp only [List.length_cons]
    exact Nat.lt_succ_of_le (List.length_filter_le _ _)

/-- Rendering of an abstract instant inside content lines, modelling
new Date(ts).toISOString(); injective on the abstract model of dates. -/
def tsRender (n : Nat) : String :=
  toString n

/-- The initiator tag of an item: item.initiator ? item.initiator.type :
the UNKNOWN literal. -/
def initiatorTag (i : Item) : String :=
  match i.initiator with
  | some ini => ini.type
  | none => "UNKNOWN"

/-- The body of the per-type switch of _processConversationItems, as the
string assigned to formattedContent; the default case leaves it empty. -/
def renderSwitch (item : Item) (c : Content) : String :=
  let ts := tsRender item.timestamp
  match c.type with
  | "CHAT_MESSAGE" =>
      "[" ++ ts ++ "] " ++ initiatorTag item ++ ": " ++ jsStr c.content
  | "EMAIL" =>
      let subject := if truthyS c.subject then "Subject: " ++ jsStr c.subject ++ "\n" else ""
      let bodyContent := jsStr (jsOrS c.bodyPlain c.content)
      "[" ++ ts ++ "] " ++ initiatorTag item ++ " - EMAIL:\n" ++ subject ++ bodyContent
  | "SMS" =>
      "[" ++ ts ++ "] " ++ initiatorTag item ++ " - SMS: " ++ jsStr c.body
  | "PHONE_CALL" =>
      let duration :=
        match c.completedAt, c.answeredAt with
        | some comp, some ans => toString ((comp - ans) / 1000)
        | _, _ => "unknown"
      "[" ++ ts ++ "] " ++ initiatorTag item ++ " - CALL: Duration " ++ duration ++ "s"
  | "CONVERSATION_NOTE" =>
      "[" ++ ts ++ "] NOTE: " ++ jsStr c.body
  | "TOPIC_CHANGE" =>
      let added :=
        if c.addedTopicIds.isEmpty then ""
        else "[" ++ ts ++ "] TOPICS ADDED: " ++ String.intercalate ", " c.addedTopicIds
      if c.removedTopicIds.isEmpty then added
      else "[" ++ ts ++ "] TOPICS REMOVED: " ++ String.intercalate ", " c.removedTopicIds
  | "CONVERSATION_STATUS_CHANGE" =>
      "[" ++ ts ++ "] STATUS CHANGED TO: " ++ jsStr c.status
  | "CUSTOMER_ACTIVITY" =>
      "[" ++ ts ++ "] ACTIVITY: " ++ jsStr c.title ++ "\n" ++ jsStr c.body
  | _ => ""

/-- The contribution of one item to contentParts: items without a content
object are skipped, the default switch case is skipped, and an empty
formattedContent is not pushed. -/
def renderItem (item : Item) : Option String :=
  match item.content with
  | none => none
  | some c =>
      let s := renderSwitch item c
      if s = "" then none else some s

/-- Insertion of an item into an already ordered list, in front of the
first element with a greater-or-equal timestamp. -/
def ordInsert (x : Item) : List Item → List Item
  | [] => [x]
  | y :: t => if x.timestamp ≤ y.timestamp then x :: y :: t else y :: ordInsert x t

/-- The stable ascending sort by the item's own timestamp field, the
behaviour ECMAScript specifies for Array.prototype.sort with the
comparator new Date(a.timestamp) - new Date(b.timestamp); realized here
as a stable insertion sort, which is extensionally the unique stable
ascending reordering. -/
def sortByTimestamp : List Item → List Item
  | [] => []
  | x :: t => ordInsert x (sortByTimestamp t)

/-- Transformer._processConversationItems: sort ascending by timestamp,
render each item, join the rendered blocks with a blank line. -/
def processConversationItems (items : List Item) : String :=
  if items.isEmpty then ""
  else String.intercalate "\n\n" ((sortByTimestamp items).filterMap renderItem)

/-- One email or phone entry of a customer profile. -/
structure ContactEntry where
  primary : Bool := false
  normalized : Option String := none
  original : Option String := none
  deriving Repr, DecidableEq

/-- A Gladly customer profile as read by _transformCustomer. -/
structure Customer where
  id : String
  name : Option String := none
  emails : List ContactEntry := []
  phones : List ContactEntry := []
  externalCustomerId : Option String := none
  deriving Repr, DecidableEq

/-- The transformed customer object. -/
structure TransformedCustomer where
  id : String
  name : Option String := none
  email : Option String := none
  phone : Option String := none
  externalId : Option String := none
  deriving Repr, DecidableEq

/-- The entry selected by the pattern find(e => e.primary) || list[0]. -/
def pickContact (l : List ContactEntry) : Option ContactEntry :=
  match l.find? fun e => e.primary with
  | some e => some e
  | none => l.head?

/-- The value taken from a selected entry: normalized || original. -/
def contactValue (e : ContactEntry) : Option String :=
  jsOrS e.normalized e.original

/-- Transformer._transformCustomer. -/
def transformCustomer (c : Customer) : TransformedCustomer :=
  { id := c.id
    name := if truthyS c.name then c.name else none
    email := if c.emails.isEmpty then none else (pickContact c.emails).bind contactValue
    phone := if c.phones.isEmpty then none else (pickContact c.phones).bind contactValue
    externalId := if truthyS c.externalCustomerId then c.externalCustomerId else none }

/-- One Gladly custom attribute entry. -/
structure CustomAttr where
  id : String := ""
  value : Option String := none
  deriving Repr, DecidableEq

/-- Setting a key on a JavaScript object: an existing key keeps its
position and is overwritten, a new key is appended. -/
def setKey (acc : List (String × String)) (k v : String) : List (String × String) :=
  if acc.any (fun e => e.1 == k) then acc.map fun e => if e.1 == k then (e.1, v) else e
  else acc ++ [(k, v)]

/-- Transformer._transformCustomAttributes: entries with a truthy id and a
defined value collapse into a key-value mapping; others are dropped. -/
def transformCustomAttributes (attrs : List CustomAttr) : List (String × String) :=
  attrs.foldl
    (fun acc attr =>
      match attr.value with
      | some v => if attr.id = "" then acc else setKey acc attr.id v
      | none => acc)
    []

/-- A Gladly conversation as read by transformConversation. -/
structure Conversation where
  id : String
  createdAt : String
  status : String
  inboxId : String := ""
  agentId : Option String := none
  customerId : Option String := none
  topicIds : List String := []
  customAttributes : List CustomAttr := []
  deriving Repr, DecidableEq

/-- The transformed feedback record produced by the Transformer.  Optional
fields model properties that are set only conditionally. -/
structure FeedbackRecord where
  id : String
  source : String
  channel : String
  timestamp : String
  status : String
  metadata : List (String × String)
  agent : Option String := none
  customer : Option TransformedCustomer := none
  tags : Option (List String) := none
  content : String := ""
  customAttributes : Option (List (String × String)) := none
  deriving Repr, DecidableEq

/-- Transformer.transformConversation. -/
def transformConversation (conversation : Conversation) (items : List Item)
    (customer : Option Customer) : FeedbackRecord :=
  { id := "gladly_" ++ conversation.id
    source := "Gladly"
    channel := determinePrimaryChannel items
    timestamp := conversation.createdAt
    status := conversation.status.toLower
    metadata :=
      [("gladly_conversation_id", conversation.id), ("inboxId", conversation.inboxId)]
    agent := if truthyS conversation.agentId then conversation.agentId else none
    customer := customer.map transformCustomer
    tags := if conversation.topicIds.isEmpty then none else some conversation.topicIds
    content := processConversationItems items
    customAttributes :=
      if conversation.customAttributes.isEmpty then none
      else some (transformCustomAttributes conversation.customAttributes) }

/-- A Gladly customer profile response, as seen by GladlyClient
fetchCustomer: a profile, a 301 resource-moved signal whose Location
header ends in the replacement id, or any other failure. -/
inductive CustomerResp where
  | success (p : Customer)
  | moved (newId : String)
  | failure
  deriving Repr, DecidableEq

/-- GladlyClient.fetchCustomer over a response environment: a moved
signal causes a transparent re-fetch against the replacement id, with no
bound on the length of the chain in the source; the fuel argument only
makes the unbounded recursion total in the model (none = fuel exhausted
before the chain resolved).  Any other failure is rethrown. -/
def fetchCustomerClient (env : String → CustomerResp) :
    Nat → String → Option (Except Unit Customer)
  | 0, _ => none
  | fuel + 1, id =>
      match env id with
      | .success p => some (.ok p)
      | .moved newId => fetchCustomerClient env fuel newId
      | .failure => some (.error ())

/-- GladlyImporter._fetchCustomer: the client error is caught and turned
into an absent customer (none), so the conversation is still processed. -/
def fetchCustomerImporter (env : String → CustomerResp) (fuel : Nat) (id : String) :
    Option (Option Customer) :=
  (fetchCustomerClient env fuel id).map fun r =>
    match r with
    | .ok p => some p
    | .error _ => none

/-- Modelled from the spec claim wording for fetchCustomer: on a moved
signal, retry exactly once against the replacement id before giving up;
any other failure (including a second moved signal) yields absent. -/
def specFetchCustomerOnce (env : String → CustomerResp) (id : String) :
    Option Customer :=
  match env id with
  | .success p => some p
  | .failure => none
  | .moved newId =>
      match env newId with
      | .success p => some p
      | _ => none

/-- The chain of moved signals starting at an id resolves, in the given
number of environment lookups, to a profile (some p) or to a non-moved
failure (none). -/
inductive Resolves (env : String → CustomerResp) : String → Option Customer → Nat → Prop where
  | success {id p} : env id = .success p → Resolves env id (some p) 1
  | failure {id} : env id = .failure → Resolves env id none 1
  | moved {id newId r n} : env id = .moved newId → Resolves env newId r n →
      Resolves env id r (n + 1)

/-- The response of the conversation-items endpoint: a JSON list of
items, a non-list body, or a failure of the call. -/
inductive ItemsResp where
  | items (l : List Item)
  | nonList
  | failure
  deriving Repr, DecidableEq

/-- GladlyClient.fetchConversationItems: a non-list body degrades to the
empty list, a failing call is rethrown as an error. -/
def fetchItemsClient (resp : ItemsResp) : Except String (List Item) :=
  match resp with
  | .items l => .ok l
  | .nonList => .ok []
  | .failure => .error "Failed to fetch conversation items"

/-- GladlyImporter._fetchConversationItems: the client error is caught
and turned into the empty list. -/
def fetchItemsImporter (resp : ItemsResp) : List Item :=
  match fetchItemsClient resp with
  | .ok l => l
  | .error _ => []

/-- The inputs of one orchestrator run that are relevant to the state
update: the previously stored lastImportTime, the optional explicit end
date, the current time (all abstract instants), and the outcome of each
per-conversation body (ok, or the message of the caught exception). -/
structure RunInput where
  prevLastImport : Option Nat := none
  endDateOpt : Option Nat := none
  now : Nat := 0
  outcomes : List (Except String Unit) := []
  deriving Repr

/-- The resolved end date of a run: the explicit end date if given, else
the current time (importEndDate in GladlyImporter.import). -/
def resolvedEndDate (run : RunInput) : Nat :=
  run.endDateOpt.getD run.now

/-- The error count accumulated by the per-conversation loop: each caught
exception increments metrics.errorsCount, a successful body leaves it. -/
def errorsCount (run : RunInput) : Nat :=
  run.outcomes.foldl
    (fun n o =>
      match o with
      | .ok _ => n
      | .error _ => n + 1)
    0

/-- The finalization step of GladlyImporter.import combined with
StateManager.updateLastImportTime: the stored lastImportTime is rewritten
to the resolved end date exactly when the run counted zero errors, and is
left unchanged otherwise. -/
def finalizeLastImportTime (run : RunInput) : Option Nat :=
  if errorsCount run = 0 then some (resolvedEndDate run)
  else run.prevLastImport

/-- The destination payload as seen by the local validation of
EnterpretClient: JavaScript field reads with truthiness checks.  A
metadata object is truthy whenever present, even when empty. -/
structure FeedbackInput where
  id : Option String := none
  source : Option String := none
  timestamp : Option String := none
  content : Option String := none
  metadata : Option (List (String × String)) := none
  deriving Repr, DecidableEq

/-- EnterpretClient._validateFeedbackData: the four checks in source
order, throwing the first failing message. -/
def validateFeedbackData (d : FeedbackInput) : Except String Unit :=
  if !truthyS d.id then .error "Feedback data missing required field: id"
  else if !truthyS d.source then .error "Feedback data missing required field: source"
  else if !truthyS d.timestamp then .error "Feedback data missing required field: timestamp"
  else if !truthyS d.content && !d.metadata.isSome then
    .error "Feedback data must have either content or metadata"
  else .ok ()

/-- The view of a transformed record that the destination writer's local
validation reads: every field is present (content possibly empty). -/
def toFeedbackInput (r : FeedbackRecord) : FeedbackInput :=
  { id := some r.id
    source := some r.source
    timestamp := some r.timestamp
    content := some r.content
    metadata := some r.metadata }

/-- EnterpretClient.importFeedback over an abstract network: the result
and the list of payloads actually posted.  A validation throw is caught
and rewrapped, and nothing is sent. -/
def importFeedback (net : FeedbackInput → String) (d : FeedbackInput) :
    Except String String × List FeedbackInput :=
  match validateFeedbackData d with
  | .error e => (.error ("Failed to import feedback: " ++ e), [])
  | .ok _ => (.ok (net d), [d])

/-- The first validation error among the elements of a batch, in order,
modelling the forEach that throws at the first invalid element. -/
def firstValidationError (l : List FeedbackInput) : Option String :=
  l.findSome? fun d =>
    match validateFeedbackData d with
    | .error e => some e
    | .ok _ => none

/-- EnterpretClient.importFeedbackBatch over an abstract network: a
missing or empty list is rejected immediately, every element is validated
before the batch is posted, and any throw is caught and rewrapped with
nothing sent. -/
def importFeedbackBatch (net : List FeedbackInput → String)
    (items : Option (List FeedbackInput)) : Except String String × List (List FeedbackInput) :=
  match items with
  | none =>
      (.error "Failed to import feedback batch: No feedback items provided for batch import", [])
  | some l =>
      if l.isEmpty then
        (.error "Failed to import feedback batch: No feedback items provided for batch import", [])
      else
        match firstValidationError l with
        | some e => (.error ("Failed to import feedback batch: " ++ e), [])
        | none => (.ok (net l), [l])

/-- Whether one per-conversation outcome succeeded. -/
def okOutcome : Except String Unit → Bool
  | .ok _ => true
  | .error _ => false

/-- Folding the per-conversation error increment counts the failing
outcomes. -/
theorem errorsFold_eq_countP (l : List (Except String Unit)) (n : Nat) :
    l.foldl
        (fun n o =>
          match o with
          | .ok _ => n
          | .error _ => n + 1)
        n
      = n + l.countP fun o => !okOutcome o := by
  induction l generalizing n with
  | nil => simp
  | cons o t ih =>
    cases o with
    | ok v => simp [List.countP_cons, ih, okOutcome]
    | error e => simp [List.countP_cons, ih, okOutcome]; omega

/-- The run error count is zero exactly when every per-conversation
outcome succeeded. -/
theorem errorsCount_eq_zero_iff (run : RunInput) :
    errorsCount run = 0 ↔ ∀ o ∈ run.outcomes, okOutcome o = true := by
  rw [errorsCount, errorsFold_eq_countP, Nat.zero_add, List.countP_eq_zero]
  constructor
  · intro h o ho
    have := h o ho
    simpa using this
  · intro h o ho
    simp [h o ho]

/-- A zero-error run whose explicit end date lies before the stored
lastImportTime. -/
def exBackRun : RunInput :=
  { prevLastImport := some 100
    endDateOpt := some 50
    now := 200
    outcomes := [.ok ()] }

/-- C2 counterexample: a zero-error run with an explicit end date earlier
than the stored lastImportTime rewrites the state to that earlier date,
so the resolved end date is not never-earlier than the stored value. -/
theorem lastImportTime_moves_backward_cex :
    errorsCount exBackRun = 0 ∧
    finalizeLastImportTime exBackRun = some 50 ∧
    exBackRun.prevLastImport = some 100 ∧
    (50 : Nat) < 100 := by
  refine ⟨rfl, rfl, rfl, by omega⟩

/-- C2 (amended): the persisted lastImportTime is rewritten exactly after
runs in which every per-conversation outcome succeeded (zero errors), and
is then set to the run's resolved end date; a run with a nonzero error
count leaves it unchanged.  The resolved end date is not guaranteed to be
later than the stored value. -/
theorem finalize_state_update (run : RunInput) :
    finalizeLastImportTime run =
      if run.outcomes.all okOutcome then some (resolvedEndDate run)
      else run.prevLastImport := by
  rw [finalizeLastImportTime]
  by_cases h : errorsCount run = 0
  · rw [if_pos h, if_pos]
    rw [List.all_eq_true]
    exact (errorsCount_eq_zero_iff run).1 h
  · rw [if_neg h, if_neg]
    intro hall
    exact h ((errorsCount_eq_zero_iff run).2 (List.all_eq_true.1 hall))

/-- C8: a conversation with an empty item list transforms to a record
with channel other and empty content. -/
theorem transform_no_items_other_empty (conv : Conversation) (customer : Option Customer) :
    (transformConversation conv [] customer).channel = "other" ∧
    (transformConversation conv [] customer).content = "" :=
  ⟨rfl, rfl⟩

/-- C5: the items fetch degrades to the empty list both when the source
body is not a list and when the call fails, returns the source items
otherwise, and a conversation whose items call failed is still
transformed, with empty content and its usual identifier. -/
theorem fetchItems_degrades_to_empty (conv : Conversation) (customer : Option Customer)
    (l : List Item) :
    fetchItemsImporter .failure = [] ∧
    fetchItemsImporter .nonList = [] ∧
    fetchItemsImporter (.items l) = l ∧
    (transformConversation conv (fetchItemsImporter .failure) customer).content = "" ∧
    (transformConversation conv (fetchItemsImporter .failure) customer).id
      = "gladly_" ++ conv.id :=
  ⟨rfl, rfl, rfl, rfl, rfl⟩

/-- The profile at the end of the example moved chain. -/
def exProfile : Customer :=
  { id := "c2" }

/-- An environment in which customer c0 has been merged into c1, c1 into
c2, and c2 resolves to a profile. -/
def exMovedEnv : String → CustomerResp := fun id =>
  if id = "c0" then .moved "c1"
  else if id = "c1" then .moved "c2"
  else if id = "c2" then .success exProfile
  else .failure

/-- C4 counterexample: on a chain of two moved signals the code
transparently follows both and returns the final profile, whereas
retrying exactly once before giving up would yield absent. -/
theorem fetchCustomer_not_once_cex :
    fetchCustomerImporter exMovedEnv 3 "c0" = some (some exProfile) ∧
    specFetchCustomerOnce exMovedEnv "c0" = none ∧
    (some exProfile : Option Customer) ≠ none := by
  refine ⟨by decide, by decide, by decide⟩

/-- C4 (amended): fetchCustomer transparently follows the whole chain of
moved signals, however long, and returns the profile the chain resolves
to; a chain ending in any other failure yields an absent customer (none),
not a hard error, so the conversation is still transformed without
customer enrichment. -/
theorem fetchCustomer_follows_moved_chain (env : String → CustomerResp) (id : String)
    (r : Option Customer) (n fuel : Nat) (h : Resolves env id r n) (hf : n ≤ fuel) :
    fetchCustomerImporter env fuel id = some r := by
  induction h generalizing fuel with
  | @success id p h1 =>
    match fuel, hf with
    | f + 1, _ => simp [fetchCustomerImporter, fetchCustomerClient, h1]
  | @failure id h1 =>
    match fuel, hf with
    | f + 1, _ => simp [fetchCustomerImporter, fetchCustomerClient, h1]
  | @moved id newId r n h1 hrec ih =>
    match fuel, hf with
    | f + 1, hf =>
      have := ih f (Nat.le_of_succ_le_succ hf)
      simpa [fetchCustomerImporter, fetchCustomerClient, h1] using this

/-- Witness for C4: the amended theorem applied to the concrete
two-step moved chain, with fuel strictly larger than the chain. -/
theorem fetchCustomer_follows_moved_chain_witness :
    fetchCustomerImporter exMovedEnv 4 "c0" = some (some exProfile) :=
  fetchCustomer_follows_moved_chain exMovedEnv "c0" (some exProfile) 3 4
    (@Resolves.moved exMovedEnv "c0" "c1" (some exProfile) 2 (by decide)
      (@Resolves.moved exMovedEnv "c1" "c2" (some exProfile) 1 (by decide)
        (@Resolves.success exMovedEnv "c2" exProfile (by decide))))
    (by omega)

/-- A string with a nonzero-length prefix is not the empty string. -/
theorem append_ne_empty_left (p s : String) (hp : p.length ≠ 0) : p ++ s ≠ "" := by
  intro h
  have hl := congrArg String.length h
  rw [String.length_append] at hl
  have h0 : ("" : String).length = 0 := rfl
  omega

/-- The bracketed lines built by the renderer are never empty. -/
theorem bracket_line_ne_empty (s : String) : "[" ++ s ≠ "" :=
  append_ne_empty_left "[" s (by decide)

/-- A timestamped renderer line (bracket, timestamp, label, payload) is
never empty. -/
theorem bracket_concat_ne_empty (a b c : String) : "[" ++ a ++ b ++ c ≠ "" := by
  apply append_ne_empty_left
  rw [String.length_append, String.length_append]
  have h1 : ("[" : String).length = 1 := rfl
  omega

/-- C6: for a topic-change item, the single formattedContent slot makes
the removed line overwrite the added line: with both lists non-empty only
the TOPICS REMOVED line is rendered, and with exactly one non-empty list
that one line is rendered (comma-joined ids). -/
theorem renderItem_topicChange (it : Item) (c : Content) (hc : it.content = some c)
    (ht : c.type = "TOPIC_CHANGE") :
    renderItem it =
      if c.removedTopicIds.isEmpty then
        (if c.addedTopicIds.isEmpty then none
         else some ("[" ++ tsRender it.timestamp ++ "] TOPICS ADDED: "
           ++ String.intercalate ", " c.addedTopicIds))
      else
        some ("[" ++ tsRender it.timestamp ++ "] TOPICS REMOVED: "
          ++ String.intercalate ", " c.removedTopicIds) := by
  obtain ⟨ty, co, su, bp, bo, st, ti, aa, ca, add, rem⟩ := c
  dsimp only at ht
  subst ht
  by_cases hrem : rem.isEmpty <;> by_cases hadd : add.isEmpty <;>
    simp [renderItem, hc, renderSwitch, hrem, hadd, bracket_concat_ne_empty]

/-- The concrete topic-change item of the C6 witness: both lists present
and non-empty. -/
def exTopicItem : Item :=
  { timestamp := 7
    content := some { type := "TOPIC_CHANGE", addedTopicIds := ["t1"],
                      removedTopicIds := ["t2", "t3"] } }

/-- Witness for C6: on an item carrying both added and removed topic ids,
only the TOPICS REMOVED line is rendered. -/
theorem renderItem_topicChange_witness :
    renderItem exTopicItem = some "[7] TOPICS REMOVED: t2, t3" := by
  rw [renderItem_topicChange exTopicItem
    { type := "TOPIC_CHANGE", addedTopicIds := ["t1"], removedTopicIds := ["t2", "t3"] }
    rfl rfl]
  decide

/-- Modelled from the spec wording for customer mapping: the entry
flagged primary, falling back to the first entry when none is flagged. -/
def specPickEntry (l : List ContactEntry) : Option ContactEntry :=
  match l.filter fun e => e.primary with
  | e :: _ => some e
  | [] => l.head?

/-- Modelled from the spec wording for customer mapping: the normalized
form of the value is preferred over the raw original when both exist. -/
def specEntryValue (e : ContactEntry) : Option String :=
  match e.normalized with
  | some s => some s
  | none => e.original

/-- On contact entries, searching for the first primary-flagged entry is
taking the head of the primary-flagged sublist. -/
theorem find?_primary_eq (l : List ContactEntry) :
    (l.find? fun e => e.primary) = (l.filter fun e => e.primary).head? := by
  induction l with
  | nil => rfl
  | cons x t ih =>
    rw [List.find?_cons, List.filter_cons]
    cases hx : x.primary
    · simp only [hx]
      exact ih
    · simp only [hx, if_true]
      rfl

/-- The source's pick (find-or-first) agrees with the spec's wording. -/
theorem pickContact_eq_spec (l : List ContactEntry) : pickContact l = specPickEntry l := by
  rw [pickContact, specPickEntry, find?_primary_eq]
  cases l.filter fun e => e.primary <;> rfl

/-- The source's value preference (normalized || original) agrees with
the spec's wording on entries whose normalized form, when present, is a
non-empty string. -/
theorem contactValue_eq_spec (e : ContactEntry) (h : e.normalized ≠ some "") :
    contactValue e = specEntryValue e := by
  rw [contactValue, specEntryValue, jsOrS]
  cases hn : e.normalized with
  | none => simp [truthyS]
  | some s =>
    have hs : s ≠ "" := by
      intro hse
      exact h (by rw [hn, hse])
    simp [truthyS, String.isEmpty_iff, hs]

/-- C3: the transformed customer email is the value of the primary-flagged
email entry (first entry when none is flagged), preferring the normalized
form over the raw original, whenever the emails list is non-empty; the
same rule applies to phones.  The hypothesis excludes entries whose
normalized field is present but empty, where JavaScript truthiness and
plain existence differ. -/
theorem transformCustomer_primary_first (c : Customer)
    (hE : ∀ e ∈ c.emails, e.normalized ≠ some "")
    (hP : ∀ e ∈ c.phones, e.normalized ≠ some "") :
    (transformCustomer c).email
        = (if c.emails.isEmpty then none
           else (specPickEntry c.emails).bind specEntryValue) ∧
    (transformCustomer c).phone
        = (if c.phones.isEmpty then none
           else (specPickEntry c.phones).bind specEntryValue) := by
  have key : ∀ (l : List ContactEntry), (∀ e ∈ l, e.normalized ≠ some "") →
      (pickContact l).bind contactValue = (specPickEntry l).bind specEntryValue := by
    intro l hl
    rw [pickContact_eq_spec]
    cases hp : specPickEntry l with
    | none => rfl
    | some e =>
      have he : e ∈ l := by
        rw [specPickEntry] at hp
        cases hf : l.filter fun e => e.primary with
        | cons y t =>
          rw [hf] at hp
          simp only [Option.some.injEq] at hp
          subst hp
          have hy : y ∈ l.filter fun e => e.primary := by
            rw [hf]
            exact List.mem_cons_self y t
          exact (List.mem_filter.1 hy).1
        | nil =>
          rw [hf] at hp
          cases l with
          | nil => simp at hp
          | cons x t =>
            simp only [List.head?_cons, Option.some.injEq] at hp
            subst hp
            exact List.mem_cons_self x t
      simpa using contactValue_eq_spec e (hl e he)
  exact ⟨by rw [transformCustomer]; exact if_congr Iff.rfl rfl (key c.emails hE),
         by rw [transformCustomer]; exact if_congr Iff.rfl rfl (key c.phones hP)⟩

/-- The customer profile of the C3 witness scenario: one non-primary
email a@x.com and one primary email b@x.com. -/
def exCustomer : Customer :=
  { id := "cust1"
    emails := [{ primary := false, original := some "a@x.com" },
               { primary := true, original := some "b@x.com" }] }

/-- Witness for C3: the primary-flagged email wins over the first one. -/
theorem transformCustomer_primary_first_witness :
    (transformCustomer exCustomer).email = some "b@x.com" :=
  ((transformCustomer_primary_first exCustomer (by decide) (by decide)).1).trans (by decide)

/-- C9: the destination writer validates locally before any network
send: a single record failing validation produces a data error and posts
nothing; a batch containing any invalid element posts nothing; a missing
or empty batch list is reported as an error immediately, with nothing
posted. -/
theorem importFeedback_validates_locally (net : FeedbackInput → String)
    (netB : List FeedbackInput → String) (d : FeedbackInput) (e : String)
    (l : List FeedbackInput) (hv : validateFeedbackData d = .error e) (hm : d ∈ l) :
    importFeedback net d = (.error ("Failed to import feedback: " ++ e), []) ∧
    (importFeedbackBatch netB (some l)).2 = [] ∧
    importFeedbackBatch netB none
      = (.error "Failed to import feedback batch: No feedback items provided for batch import",
         []) ∧
    importFeedbackBatch netB (some [])
      = (.error "Failed to import feedback batch: No feedback items provided for batch import",
         []) := by
  refine ⟨?_, ?_, rfl, rfl⟩
  · rw [importFeedback, hv]
  · have hne : l.isEmpty = false := by
      cases l with
      | nil => cases hm
      | cons x t => rfl
    cases hfe : firstValidationError l with
    | some s => simp [importFeedbackBatch, hne, hfe]
    | none =>
      exfalso
      rw [firstValidationError, List.findSome?_eq_none_iff] at hfe
      have := hfe d hm
      rw [hv] at this
      cases this

/-- A payload missing the required id field. -/
def exBadRecord : FeedbackInput :=
  { source := some "Gladly", timestamp := some "2024-01-01T00:00:00Z" }

/-- Witness for C9: a record missing id is rejected locally with nothing
posted, alone and inside a batch, and the empty and missing batch lists
are rejected immediately. -/
theorem importFeedback_validates_locally_witness :
    importFeedback (fun _ => "ok") exBadRecord
        = (.error "Failed to import feedback: Feedback data missing required field: id", []) ∧
    (importFeedbackBatch (fun _ => "ok") (some [exBadRecord])).2 = [] ∧
    importFeedbackBatch (fun _ => "ok") none
      = (.error "Failed to import feedback batch: No feedback items provided for batch import",
         []) ∧
    importFeedbackBatch (fun _ => "ok") (some [])
      = (.error "Failed to import feedback batch: No feedback items provided for batch import",
         []) :=
  importFeedback_validates_locally (fun _ => "ok") (fun _ => "ok") exBadRecord
    "Feedback data missing required field: id" [exBadRecord] rfl
    (List.mem_cons_self exBadRecord [])

/-- A non-empty string has isEmpty false. -/
theorem isEmpty_false_of_ne (s : String) (h : s ≠ "") : s.isEmpty = false := by
  cases he : s.isEmpty
  · rfl
  · exact absurd ((String.isEmpty_iff s).1 he) h

/-- C10: every record produced by transformConversation carries the
prefixed id, the source Gladly, the conversation's createdAt as
timestamp, and a non-empty metadata object, and therefore passes the
destination writer's local validation even when its content is empty. -/
theorem transform_passes_validation (conv : Conversation) (items : List Item)
    (customer : Option Customer) (h : conv.createdAt ≠ "") :
    (transformConversation conv items customer).id = "gladly_" ++ conv.id ∧
    (transformConversation conv items customer).id ≠ "" ∧
    (transformConversation conv items customer).source = "Gladly" ∧
    (transformConversation conv items customer).timestamp = conv.createdAt ∧
    (transformConversation conv items customer).metadata ≠ [] ∧
    validateFeedbackData (toFeedbackInput (transformConversation conv items customer))
      = .ok () := by
  have h1 : ("gladly_" ++ conv.id).isEmpty = false :=
    isEmpty_false_of_ne _ (append_ne_empty_left "gladly_" conv.id (by decide))
  have h2 : conv.createdAt.isEmpty = false := isEmpty_false_of_ne _ h
  refine ⟨rfl, append_ne_empty_left "gladly_" conv.id (by decide), rfl, rfl,
    List.cons_ne_nil _ _, ?_⟩
  have h3 : ("Gladly" : String).isEmpty = false := rfl
  simp [validateFeedbackData, toFeedbackInput, transformConversation, truthyS, h1, h2, h3]

/-- A minimal conversation with the required fields. -/
def exConversation : Conversation :=
  { id := "c1", createdAt := "2024-01-01T00:00:00Z", status := "OPEN" }

/-- Witness for C10: the transformed record of a conversation with no
items (empty content) passes the destination writer's validation. -/
theorem transform_passes_validation_witness :
    validateFeedbackData (toFeedbackInput (transformConversation exConversation [] none))
      = .ok () :=
  (transform_passes_validation exConversation [] none (by decide)).2.2.2.2.2

/-- Membership in an insertion. -/
theorem mem_ordInsert (x z : Item) (l : List Item) :
    z ∈ ordInsert x l ↔ z = x ∨ z ∈ l := by
  induction l with
  | nil => simp [ordInsert]
  | cons y t ih =>
    rw [ordInsert]
    by_cases hxy : x.timestamp ≤ y.timestamp
    · rw [if_pos hxy]
      simp [or_comm, or_assoc, or_left_comm]
    · rw [if_neg hxy]
      simp [ih]
      tauto

/-- Insertion is a permutation of consing. -/
theorem perm_ordInsert (x : Item) (l : List Item) : (ordInsert x l).Perm (x :: l) := by
  induction l with
  | nil => exact List.Perm.refl _
  | cons y t ih =>
    rw [ordInsert]
    by_cases hxy : x.timestamp ≤ y.timestamp
    · rw [if_pos hxy]
    · rw [if_neg hxy]
      exact (ih.cons y).trans (List.Perm.swap x y t)

/-- The stable sort is a permutation of its input. -/
theorem perm_sortByTimestamp (l : List Item) : (sortByTimestamp l).Perm l := by
  induction l with
  | nil => exact List.Perm.refl _
  | cons x t ih => exact (perm_ordInsert x (sortByTimestamp t)).trans (ih.cons x)

/-- Insertion into a timestamp-ordered list keeps it ordered. -/
theorem pairwise_ordInsert (x : Item) (l : List Item)
    (h : l.Pairwise fun a b => a.timestamp ≤ b.timestamp) :
    (ordInsert x l).Pairwise fun a b => a.timestamp ≤ b.timestamp := by
  induction l with
  | nil => simp [ordInsert]
  | cons y t ih =>
    rcases List.pairwise_cons.1 h with ⟨hy, ht⟩
    rw [ordInsert]
    by_cases hxy : x.timestamp ≤ y.timestamp
    · rw [if_pos hxy]
      refine List.pairwise_cons.2 ⟨?_, h⟩
      intro z hz
      rcases List.mem_cons.1 hz with rfl | hz
      · exact hxy
      · exact le_trans hxy (hy z hz)
    · rw [if_neg hxy]
      refine List.pairwise_cons.2 ⟨?_, ih ht⟩
      intro z hz
      rcases (mem_ordInsert x z t).1 hz with rfl | hz
      · exact Nat.le_of_not_le hxy
      · exact hy z hz

/-- The stable sort orders the items ascending by their own timestamp. -/
theorem sorted_sortByTimestamp (l : List Item) :
    (sortByTimestamp l).Pairwise fun a b => a.timestamp ≤ b.timestamp := by
  induction l with
  | nil => simp [sortByTimestamp]
  | cons x t ih => exact pairwise_ordInsert x (sortByTimestamp t) ih

/-- Stability at one timestamp: inserting an element either prepends it
to the slice at its own timestamp or leaves every slice untouched. -/
theorem filter_ordInsert (k : Nat) (x : Item) (l : List Item) :
    (ordInsert x l).filter (fun i => i.timestamp == k)
      = (if x.timestamp == k then [x] else [])
          ++ l.filter fun i => i.timestamp == k := by
  induction l with
  | nil =>
    rw [ordInsert]
    cases hx : x.timestamp == k <;> simp [List.filter_cons, hx]
  | cons y t ih =>
    rw [ordInsert]
    by_cases hxy : x.timestamp ≤ y.timestamp
    · rw [if_pos hxy]
      cases hx : x.timestamp == k <;> simp [List.filter_cons, hx]
    · rw [if_neg hxy]
      cases hx : x.timestamp == k
      · simp [List.filter_cons, ih, hx]
      · have hyk : (y.timestamp == k) = false := by
          have hlt : y.timestamp < x.timestamp := Nat.lt_of_not_le hxy
          have hxk : x.timestamp = k := by simpa using hx
          have : y.timestamp ≠ k := by omega
          simpa using this
        simp [List.filter_cons, ih, hx, hyk]

/-- Stability of the sort: the slice of items at any fixed timestamp
appears in the sorted list in exactly its input order. -/
theorem filter_sortByTimestamp (k : Nat) (l : List Item) :
    (sortByTimestamp l).filter (fun i => i.timestamp == k)
      = l.filter fun i => i.timestamp == k := by
  induction l with
  | nil => rfl
  | cons x t ih =>
    rw [sortByTimestamp, filter_ordInsert, ih, List.filter_cons]
    cases hx : x.timestamp == k <;> simp [hx]

/-- A chat item initiated by a customer, as in the C7 scenario. -/
def chatItem (ts : Nat) (msg : String) : Item :=
  { timestamp := ts
    initiator := some { type := "CUSTOMER" }
    content := some { type := "CHAT_MESSAGE", content := some msg } }

/-- C7: the rendered content blocks follow the items sorted ascending by
their own timestamp field regardless of input array order, the sort is
stable (the slice at any fixed timestamp keeps its input order), blocks
are joined with a blank line; in particular, for two chat items
timestamped 5 then 3 in array order, the line of timestamp 3 appears
first. -/
theorem content_blocks_chronological (items : List Item) (k : Nat) :
    ((sortByTimestamp items).Pairwise fun a b => a.timestamp ≤ b.timestamp) ∧
    (sortByTimestamp items).Perm items ∧
    ((sortByTimestamp items).filter (fun i => i.timestamp == k)
      = items.filter fun i => i.timestamp == k) ∧
    processConversationItems items
      = String.intercalate "\n\n" ((sortByTimestamp items).filterMap renderItem) ∧
    processConversationItems [chatItem 5 "second message", chatItem 3 "first message"]
      = "[3] CUSTOMER: first message\n\n[5] CUSTOMER: second message" := by
  refine ⟨sorted_sortByTimestamp items, perm_sortByTimestamp items,
    filter_sortByTimestamp k items, ?_, by decide⟩
  rw [processConversationItems]
  cases items with
  | nil => rfl
  | cons x t => rfl

/-- The maximum of a list of naturals, zero on the empty list. -/
def natMaxList (l : List Nat) : Nat :=
  l.foldl Nat.max 0

/-- Folding max from any seed is the max of the seed and the list max. -/
theorem foldl_max_init (l : List Nat) : ∀ m, l.foldl Nat.max m = Nat.max m (natMaxList l) := by
  induction l with
  | nil => intro m; simp [natMaxList]
  | cons n t ih =>
    intro m
    have h1 : natMaxList (n :: t) = Nat.max n (natMaxList t) := by
      rw [natMaxList, List.foldl_cons, ih]
      simp
    rw [List.foldl_cons, ih, h1]
    exact Nat.max_assoc m n (natMaxList t)

/-- Every member is bounded by the list max. -/
theorem le_natMaxList (l : List Nat) (x : Nat) (hx : x ∈ l) : x ≤ natMaxList l := by
  induction l with
  | nil => cases hx
  | cons n t ih =>
    have h1 : natMaxList (n :: t) = Nat.max n (natMaxList t) := by
      rw [natMaxList, List.foldl_cons, foldl_max_init]
      simp
    rcases List.mem_cons.1 hx with rfl | hx
    · rw [h1]; exact Nat.le_max_left _ _
    · rw [h1]; exact le_trans (ih hx) (Nat.le_max_right _ _)

/-- The list max is bounded by any common upper bound. -/
theorem natMaxList_le (l : List Nat) (b : Nat) (h : ∀ x ∈ l, x ≤ b) : natMaxList l ≤ b := by
  induction l with
  | nil => simp [natMaxList]
  | cons n t ih =>
    have h1 : natMaxList (n :: t) = Nat.max n (natMaxList t) := by
      rw [natMaxList, List.foldl_cons, foldl_max_init]
      simp
    rw [h1]
    exact Nat.max_le.2 ⟨h n (List.mem_cons_self n t), ih fun x hx => h x (List.mem_cons_of_mem n hx)⟩

/-- Lists with the same members have the same max. -/
theorem natMaxList_congr (l₁ l₂ : List Nat) (h : ∀ x, x ∈ l₁ ↔ x ∈ l₂) :
    natMaxList l₁ = natMaxList l₂ :=
  Nat.le_antisymm
    (natMaxList_le l₁ _ fun x hx => le_natMaxList l₂ x ((h x).1 hx))
    (natMaxList_le l₂ _ fun x hx => le_natMaxList l₁ x ((h x).2 hx))

/-- Deduplication keeps exactly the members. -/
theorem mem_dedupF (x : String) (l : List String) : x ∈ dedupF l ↔ x ∈ l := by
  induction l using dedupF.induct with
  | case1 => simp [dedupF]
  | case2 c t ih =>
    rw [dedupF]
    by_cases hx : x = c
    · subst hx
      simp
    · simp only [List.mem_cons, ih, List.mem_filter]
      constructor
      · rintro (rfl | ⟨hm, _⟩)
        · exact Or.inl rfl
        · exact Or.inr hm
      · rintro (rfl | hm)
        · exact Or.inl rfl
        · exact Or.inr ⟨hm, by simpa using hx⟩

/-- Filtering away elements that the search predicate rejects anyway does
not change the first hit. -/
theorem find?_filter_of_imp (p q : String → Bool) (l : List String)
    (h : ∀ a, q a = false → p a = false) :
    (l.filter q).find? p = l.find? p := by
  induction l with
  | nil => rfl
  | cons x t ih =>
    rw [List.filter_cons]
    cases hq : q x
    · rw [if_neg (by simp [hq]), List.find?_cons, h x hq, ih]
    · rw [if_pos (by simp [hq]), List.find?_cons, List.find?_cons]
      cases p x <;> simp [ih]

/-- Deduplication does not change the first element satisfying a
predicate. -/
theorem find?_dedupF (p : String → Bool) (l : List String) :
    (dedupF l).find? p = l.find? p := by
  induction l using dedupF.induct with
  | case1 => rw [dedupF]
  | case2 c t ih =>
    rw [dedupF, List.find?_cons, List.find?_cons]
    cases hc : p c
    · rw [ih, find?_filter_of_imp]
      intro a ha
      have : ¬ (a ≠ c) := by simpa using ha
      have hac : a = c := by tauto
      rw [hac, hc]
    · rfl

/-- Incrementing the count at one key does not change which keys are
present. -/
theorem keyMem_bumpInc (acc : List (String × Nat)) (c d : String) :
    keyMem (acc.map fun e => if e.1 == c then (e.1, e.2 + 1) else e) d = keyMem acc d := by
  induction acc with
  | nil => rfl
  | cons a t ih =>
    simp only [keyMem, List.map_cons, List.any_cons] at ih ⊢
    have h1 : ((if a.1 == c then (a.1, a.2 + 1) else a).1 == d) = (a.1 == d) := by
      cases ha : a.1 == c <;> simp [ha]
    rw [h1, ih]

/-- The accumulating count loop of determinePrimaryChannel: seeded with
any table, the result is the seeded entries with their counts increased,
followed by the new keys in first-occurrence order with their counts. -/
theorem foldl_bump_eq (cs : List String) : ∀ acc : List (String × Nat),
    cs.foldl bump acc =
      (acc.map fun e => (e.1, e.2 + cs.count e.1))
        ++ ((dedupF (cs.filter fun c => !keyMem acc c)).map fun c => (c, cs.count c)) := by
  induction cs with
  | nil =>
    intro acc
    simp only [List.foldl_nil, List.count_nil, Nat.add_zero, List.filter_nil]
    rw [dedupF]
    simp
  | cons c t ih =>
    intro acc
    rw [List.foldl_cons, ih (bump acc c)]
    by_cases hk : keyMem acc c
    · rw [bump, if_pos hk]
      have hA : ((acc.map fun e => if e.1 == c then (e.1, e.2 + 1) else e).map
            fun e => (e.1, e.2 + t.count e.1))
          = acc.map fun e => (e.1, e.2 + (c :: t).count e.1) := by
        rw [List.map_map]
        apply List.map_congr_left
        intro e _
        obtain ⟨e1, e2⟩ := e
        by_cases he : e1 = c
        · subst he
          simp [List.count_cons]
          omega
        · have hbe : (e1 == c) = false := beq_eq_false_iff_ne.2 he
          have hce : (c == e1) = false := beq_eq_false_iff_ne.2 (Ne.symm he)
          simp [he, hbe, hce, List.count_cons]
      have hB : (t.filter fun d => !keyMem
            (acc.map fun e => if e.1 == c then (e.1, e.2 + 1) else e) d)
          = t.filter fun d => !keyMem acc d :=
        List.filter_congr fun d _ => by rw [keyMem_bumpInc]
      have hC : ((c :: t).filter fun d => !keyMem acc d)
          = t.filter fun d => !keyMem acc d := by
        rw [List.filter_cons, if_neg]
        simp [hk]
      have hD : ((dedupF (t.filter fun d => !keyMem acc d)).map fun d => (d, t.count d))
          = (dedupF (t.filter fun d => !keyMem acc d)).map fun d => (d, (c :: t).count d) := by
        apply List.map_congr_left
        intro d hd
        have hdm : d ∈ t.filter fun d => !keyMem acc d := (mem_dedupF _ _).1 hd
        have hdp : (!keyMem acc d) = true := (List.mem_filter.1 hdm).2
        have hdc : c ≠ d := by
          intro h
          rw [← h] at hdp
          simp [hk] at hdp
        have hcd : (c == d) = false := beq_eq_false_iff_ne.2 hdc
        rw [List.count_cons, hcd]
        simp
      rw [hA, hB, hD, hC]
    · rw [bump, if_neg hk]
      have hkf : keyMem acc c = false := by
        cases hkb : keyMem acc c
        · rfl
        · exact absurd hkb hk
      have hkeys : ∀ e ∈ acc, (e.1 == c) = false := by
        intro e he
        have := List.any_eq_false.1 hkf e he
        simpa using this
      have hA1 : (acc.map fun e => (e.1, e.2 + t.count e.1))
          = acc.map fun e => (e.1, e.2 + (c :: t).count e.1) := by
        apply List.map_congr_left
        intro e he
        have hce : (c == e.1) = false := by
          have h1 : e.1 ≠ c := by
            intro h
            have h2 := hkeys e he
            rw [beq_iff_eq.2 h] at h2
            cases h2
          exact beq_eq_false_iff_ne.2 (Ne.symm h1)
        simp [List.count_cons, hce]
      have hA : List.map (fun e => (e.1, e.2 + t.count e.1)) (acc ++ [(c, 1)])
          = (acc.map fun e => (e.1, e.2 + (c :: t).count e.1)) ++ [(c, 1 + t.count c)] := by
        rw [List.map_append, hA1]
        rfl
      have hB : (t.filter fun d => !keyMem (acc ++ [(c, 1)]) d)
          = (t.filter fun d => !keyMem acc d).filter fun x => x ≠ c := by
        rw [List.filter_filter]
        apply List.filter_congr
        intro d _
        simp only [keyMem, List.any_append, List.any_cons, List.any_nil]
        by_cases hdc : d = c
        · subst hdc
          simp
        · have h1 : (c == d) = false := beq_eq_false_iff_ne.2 (Ne.symm hdc)
          simp [h1, hdc]
      have hC : ((c :: t).filter fun d => !keyMem acc d)
          = c :: (t.filter fun d => !keyMem acc d) := by
        rw [List.filter_cons, if_pos]
        simp [hk]
      have hD : ((dedupF ((t.filter fun d => !keyMem acc d).filter fun x => x ≠ c)).map
            fun d => (d, t.count d))
          = (dedupF ((t.filter fun d => !keyMem acc d).filter fun x => x ≠ c)).map
            fun d => (d, (c :: t).count d) := by
        apply List.map_congr_left
        intro d hd
        have hdm := (mem_dedupF _ _).1 hd
        have hdc : ¬ (d = c) := by
          have := (List.mem_filter.1 hdm).2
          simpa using this
        have hcd : (c == d) = false := beq_eq_false_iff_ne.2 fun h => hdc h.symm
        rw [List.count_cons, hcd]
        simp
      rw [hA, hB, hD, hC, dedupF]
      have hcount : (c :: t).count c = 1 + t.count c := by
        rw [List.count_cons]
        simp
        omega
      rw [List.map_cons, ← hcount]
      simp

/-- The running maximum of the selection loop never decreases below its
seed. -/
theorem le_foldl_maxSnd (l : List (String × Nat)) :
    ∀ m, m ≤ l.foldl (fun a e => Nat.max a e.2) m := by
  induction l with
  | nil => intro m; simp
  | cons e t ih =>
    intro m
    rw [List.foldl_cons]
    exact le_trans (Nat.le_max_left m e.2) (ih (Nat.max m e.2))

/-- The running maximum is either the seed or attained by some entry. -/
theorem foldl_maxSnd_attained (l : List (String × Nat)) :
    ∀ m, l.foldl (fun a e => Nat.max a e.2) m = m
      ∨ ∃ e ∈ l, e.2 = l.foldl (fun a e => Nat.max a e.2) m := by
  induction l with
  | nil => intro m; exact Or.inl rfl
  | cons e t ih =>
    intro m
    rw [List.foldl_cons]
    rcases ih (Nat.max m e.2) with h1 | ⟨e0, he0, he0v⟩
    · by_cases hme : e.2 ≤ m
      · have hmx : Nat.max m e.2 = m := Nat.max_eq_left hme
        exact Or.inl (h1.trans hmx)
      · refine Or.inr ⟨e, List.mem_cons_self e t, ?_⟩
        have hmx : Nat.max m e.2 = e.2 := Nat.max_eq_right (Nat.le_of_not_le hme)
        rw [h1, hmx]
    · exact Or.inr ⟨e0, List.mem_cons_of_mem e he0, he0v⟩

/-- Every entry is bounded by the running maximum. -/
theorem foldl_maxSnd_ge_mem (l : List (String × Nat)) (e : String × Nat) (he : e ∈ l) :
    ∀ m, e.2 ≤ l.foldl (fun a e => Nat.max a e.2) m := by
  induction l with
  | nil => cases he
  | cons a t ih =>
    intro m
    rw [List.foldl_cons]
    rcases List.mem_cons.1 he with rfl | he1
    · exact le_trans (Nat.le_max_right m e.2) (le_foldl_maxSnd t (Nat.max m e.2))
    · exact ih he1 (Nat.max m a.2)

/-- The strictly-greater selection loop of determinePrimaryChannel keeps
the seed when nothing beats it, and otherwise returns the first entry
whose count equals the overall maximum. -/
theorem foldl_pickStep_eq (M : Nat) (l : List (String × Nat)) :
    ∀ (p : String) (m : Nat), M = l.foldl (fun a e => Nat.max a e.2) m →
    l.foldl pickStep (p, m) =
      if M = m then (p, m) else (l.find? fun e => e.2 == M).getD (p, m) := by
  induction l with
  | nil =>
    intro p m hM
    simp only [List.foldl_nil] at hM ⊢
    rw [if_pos hM]
  | cons e t ih =>
    obtain ⟨c, n⟩ := e
    intro p m hM
    rw [List.foldl_cons] at hM ⊢
    rw [pickStep]
    dsimp only at hM
    by_cases hnm : m < n
    · rw [if_pos hnm]
      have hmx : Nat.max m n = n := Nat.max_eq_right (le_of_lt hnm)
      rw [hmx] at hM
      rw [ih c n hM]
      have hMn : n ≤ M := hM ▸ le_foldl_maxSnd t n
      rw [if_neg (by omega : ¬ M = m)]
      by_cases hEq : M = n
      · rw [if_pos hEq]
        have hb : (n == M) = true := beq_iff_eq.2 hEq.symm
        simp [List.find?_cons, hb]
      · rw [if_neg hEq]
        have hb : (n == M) = false := beq_eq_false_iff_ne.2 fun h => hEq h.symm
        rcases foldl_maxSnd_attained t n with h1 | ⟨e0, he0, he0v⟩
        · exact absurd (hM.trans h1) hEq
        · have hsome : (t.find? fun e => e.2 == M).isSome := by
            rw [List.find?_isSome]
            exact ⟨e0, he0, beq_iff_eq.2 (he0v.trans hM.symm)⟩
          obtain ⟨y, hy⟩ := Option.isSome_iff_exists.1 hsome
          simp [List.find?_cons, hb, hy]
    · rw [if_neg hnm]
      have hmx : Nat.max m n = m := Nat.max_eq_left (Nat.le_of_not_lt hnm)
      rw [hmx] at hM
      rw [ih p m hM]
      by_cases hEq : M = m
      · rw [if_pos hEq, if_pos hEq]
      · rw [if_neg hEq, if_neg hEq]
        have hMm : m ≤ M := hM ▸ le_foldl_maxSnd t m
        have hnle : ¬ m < n := hnm
        have hn : (n == M) = false := by
          rw [beq_eq_false_iff_ne]
          omega
        simp [List.find?_cons, hn]

/-- The count table built from an empty seed lists the channels in
first-occurrence order, each with its total multiplicity. -/
theorem channelCounts_eq (items : List Item) :
    channelCounts items
      = (dedupF (channelsOf items)).map fun c => (c, (channelsOf items).count c) := by
  rw [channelCounts, foldl_bump_eq]
  have h1 : ((channelsOf items).filter fun c => !keyMem [] c) = channelsOf items := by
    rw [show (fun c => !keyMem ([] : List (String × Nat)) c) = (fun _ : String => true) from rfl]
    exact List.filter_true _
  rw [h1]
  simp

/-- Scanning the count table with the strictly-greater selection loop
returns the first channel, in first-occurrence order, whose count is
maximal. -/
theorem pick_entries_eq_firstMax (cs : List String) :
    (((dedupF cs).map fun c => (c, cs.count c)).foldl pickStep ("other", 0)).1
      = firstMaxByOccurrence cs := by
  have hM : maxCountVal cs
      = ((dedupF cs).map fun c => (c, cs.count c)).foldl (fun a e => Nat.max a e.2) 0 := by
    have e1 : ((dedupF cs).map fun c => (c, cs.count c)).foldl (fun a e => Nat.max a e.2) 0
        = natMaxList ((dedupF cs).map fun c => cs.count c) := by
      rw [natMaxList, List.foldl_map, List.foldl_map]
    have e2 : natMaxList ((dedupF cs).map fun c => cs.count c)
        = natMaxList (cs.map fun c => cs.count c) := by
      apply natMaxList_congr
      intro x
      constructor
      · intro hx
        rcases List.mem_map.1 hx with ⟨c, hc, rfl⟩
        exact List.mem_map.2 ⟨c, (mem_dedupF c cs).1 hc, rfl⟩
      · intro hx
        rcases List.mem_map.1 hx with ⟨c, hc, rfl⟩
        exact List.mem_map.2 ⟨c, (mem_dedupF c cs).2 hc, rfl⟩
    rw [e1, e2, maxCountVal, natMaxList]
  rw [foldl_pickStep_eq (maxCountVal cs) ((dedupF cs).map fun c => (c, cs.count c))
    "other" 0 hM]
  by_cases hz : maxCountVal cs = 0
  · rw [if_pos hz]
    cases hcs : cs with
    | nil =>
      rw [firstMaxByOccurrence]
      rfl
    | cons c0 cs0 =>
      exfalso
      have hmem : cs.count c0 ∈ cs.map fun c => cs.count c :=
        List.mem_map.2 ⟨c0, by rw [hcs]; exact List.mem_cons_self c0 cs0, rfl⟩
      have hle : cs.count c0 ≤ maxCountVal cs := le_natMaxList _ _ hmem
      have hpos : 0 < cs.count c0 :=
        List.count_pos_iff.2 (by rw [hcs]; exact List.mem_cons_self c0 cs0)
      omega
  · rw [if_neg hz]
    rw [List.find?_map]
    have hcomp : ((fun e : String × Nat => e.2 == maxCountVal cs)
          ∘ fun c => (c, cs.count c))
        = fun c => cs.count c == maxCountVal cs := rfl
    rw [hcomp, find?_dedupF, firstMaxByOccurrence]
    cases hf : cs.find? fun c => cs.count c == maxCountVal cs with
    | none => rfl
    | some c0 => rfl

/-- Channel inference agrees everywhere with the count-based rule whose
tie-break is the first channel, in order of first occurrence in the item
sequence, among those with maximal count. -/
theorem determinePrimaryChannel_eq_firstMax (items : List Item) :
    determinePrimaryChannel items = firstMaxByOccurrence (channelsOf items) := by
  rw [determinePrimaryChannel]
  by_cases hit : items.isEmpty
  · rw [if_pos hit]
    have h0 : items = [] := List.isEmpty_iff.1 hit
    subst h0
    rfl
  · rw [if_neg hit, channelCounts_eq]
    exact pick_entries_eq_firstMax (channelsOf items)

/-- An item with the given content type and timestamp. -/
def mkItem (ty : String) (ts : Nat) : Item :=
  { timestamp := ts, content := some { type := ty } }

/-- The tie input distinguishing the two tie-break readings: channels
chat, email, email, chat. -/
def exTieItems : List Item :=
  [mkItem "CHAT_MESSAGE" 0, mkItem "EMAIL" 1, mkItem "EMAIL" 2, mkItem "CHAT_MESSAGE" 3]

/-- C1 counterexample: on items whose channel sequence is chat, email,
email, chat (a 2-2 tie) the code returns chat, the tied channel occurring
first, while the channel first seen to reach the maximal count during a
left-to-right scan is email: the first-seen-at-max-count reading of the
tie-break is false. -/
theorem primaryChannel_not_first_to_reach_max_cex :
    determinePrimaryChannel exTieItems = "chat" ∧
    firstSeenToReachMax (channelsOf exTieItems) = "email" ∧
    ("chat" : String) ≠ "email" := by
  refine ⟨by decide, by decide, by decide⟩

/-- C1 (amended): channel inference counts items by mapping content types
through the fixed table and the channel with the strictly highest count
wins; when channels tie at the maximal count the result is the tied
channel whose first counted occurrence in the item list is earliest, not
the channel that first accumulates the maximal count; in particular the
sequences chat-chat-email and email-chat-chat yield chat, and chat-email
yields chat. -/
theorem primaryChannel_count_max_first_occurrence :
    (∀ items : List Item,
        determinePrimaryChannel items = firstMaxByOccurrence (channelsOf items)) ∧
    determinePrimaryChannel [mkItem "CHAT_MESSAGE" 0, mkItem "CHAT_MESSAGE" 1,
        mkItem "EMAIL" 2] = "chat" ∧
    determinePrimaryChannel [mkItem "EMAIL" 0, mkItem "CHAT_MESSAGE" 1,
        mkItem "CHAT_MESSAGE" 2] = "chat" ∧
    determinePrimaryChannel [mkItem "CHAT_MESSAGE" 0, mkItem "EMAIL" 1] = "chat" :=
  ⟨determinePrimaryChannel_eq_firstMax, by decide, by decide, by decide⟩

end GladlyImport
